import Mathlib

/-!
Shallow embedding of the request-block parser and the protocol-session layer
of the http-client repository (src/lsp/src/parser.rs, src/lsp/src/lsp_server.rs).

Rust strings become Lean `String`, `Vec<&str>` becomes `List String`,
`HashMap<String, String>` becomes an association list with overwrite-on-insert,
`Option`/`Result` become `Option`/`Except`.  The Rust string primitives
(`str::lines`, `str::trim`, `str::split_whitespace`, `str::to_uppercase`,
`str::starts_with`, `str::find`, `Vec::join`) are modelled by structurally
recursive functions over the character list of the string, so that every
definition evaluates inside the kernel.  The external crate `url::Url::parse`
is abstracted as a parameter `parse : String → Except String ParsedUrl`;
every theorem below is universally quantified over it, and `demoParse` is one
concrete instantiation used for witnesses and counterexamples.
-/

/-- Model of Rust `str::trim`: drop whitespace characters at both ends. -/
def rustTrim (s : String) : String :=
  String.mk (((s.data.dropWhile Char.isWhitespace).reverse.dropWhile Char.isWhitespace).reverse)

/-- Character-level test that `pat` is an initial segment. -/
def startsWithChars : List Char → List Char → Bool
  | _, [] => true
  | [], _ :: _ => false
  | c :: cs, p :: ps => c = p && startsWithChars cs ps

/-- Model of Rust `str::starts_with` on string literals. -/
def strStartsWith (s pat : String) : Bool :=
  startsWithChars s.data pat.data

/-- Model of Rust `str::to_uppercase` (the parser only feeds it ASCII
method tokens, where it agrees with per-character upper-casing). -/
def rustToUpper (s : String) : String :=
  String.mk (s.data.map Char.toUpper)

/-- Model of Rust `str::len`: the UTF-8 byte count. -/
def byteLen (s : String) : Nat :=
  s.data.foldl (fun n c => n + c.utf8Size) 0

/-- Drops one trailing carriage return, as Rust `str::lines` does on every
newline-terminated line. -/
def dropTrailingCR (l : List Char) : List Char :=
  if l.getLast? = some '\r' then l.dropLast else l

/-- Accumulating scan behind `rustLines`: split at each newline, strip a
carriage return before it, and keep a final unterminated line as it is
(dropping it when empty, since the final line ending is optional). -/
def linesAux : List Char → List Char → List String
  | [], acc => if acc = [] then [] else [String.mk acc.reverse]
  | c :: cs, acc =>
    if c = '\n' then String.mk (dropTrailingCR acc.reverse) :: linesAux cs []
    else linesAux cs (c :: acc)

/-- Model of Rust `content.lines()` as used by `parse_http_file`. -/
def rustLines (s : String) : List String :=
  linesAux s.data []

/-- Accumulating scan behind `split_whitespace`: maximal non-whitespace
runs, in order. -/
def wordsAux : List Char → List Char → List String
  | [], acc => if acc = [] then [] else [String.mk acc.reverse]
  | c :: cs, acc =>
    if Char.isWhitespace c then
      if acc = [] then wordsAux cs [] else String.mk acc.reverse :: wordsAux cs []
    else wordsAux cs (c :: acc)

/-- Model of Rust `str::split_whitespace`. -/
def split_whitespace (s : String) : List String :=
  wordsAux s.data []

/-- Splits a character list at its first colon: `some (before, after)`,
or `none` when no colon occurs.  Models `str::find(':')` plus the two
index slices taken from it. -/
def splitAtColon : List Char → Option (List Char × List Char)
  | [] => none
  | c :: cs =>
    if c = ':' then some ([], cs)
    else
      match splitAtColon cs with
      | some (pre, post) => some (c :: pre, post)
      | none => none

/-- Model of `body_lines.join("\n")`. -/
def joinLines : List String → String
  | [] => ""
  | [l] => l
  | l :: ls => l ++ "\n" ++ joinLines ls

instance {ε α : Type} [DecidableEq ε] [DecidableEq α] : DecidableEq (Except ε α) := fun a b =>
  match a, b with
  | Except.ok x, Except.ok y =>
    if h : x = y then isTrue (by rw [h]) else isFalse (by intro he; cases he; exact h rfl)
  | Except.ok _, Except.error _ => isFalse (by intro h; cases h)
  | Except.error _, Except.ok _ => isFalse (by intro h; cases h)
  | Except.error x, Except.error y =>
    if h : x = y then isTrue (by rw [h]) else isFalse (by intro he; cases he; exact h rfl)

/-- Result of the external URL parser (the url crate), reduced to the two
components `validate_url` inspects: the scheme and the optional host. -/
structure ParsedUrl where
  scheme : String
  host : Option String
deriving Repr, DecidableEq

/-- Embedding of `validate_url` (parser.rs lines 14 to 36).  `url_str.len()`
is the UTF-8 byte length of the string, hence `byteLen`. -/
def validate_url (parse : String → Except String ParsedUrl) (url_str : String) :
    Except String String :=
  if byteLen url_str > 2048 then
    Except.error ("URL too long: " ++ toString (byteLen url_str) ++ " characters (max 2048)")
  else
    match parse url_str with
    | Except.error e => Except.error ("Invalid URL: " ++ e)
    | Except.ok parsed_url =>
      if parsed_url.scheme ≠ "http" ∧ parsed_url.scheme ≠ "https" then
        Except.error ("Unsupported URL scheme: \'" ++ parsed_url.scheme ++
          "\'. Only http:// and https:// are allowed")
      else if parsed_url.host = none then
        Except.error "URL must have a valid host"
      else
        Except.ok url_str

/-- The fixed method set of parser.rs line 72. -/
def valid_methods : List String :=
  ["GET", "POST", "PUT", "DELETE", "PATCH", "HEAD", "OPTIONS"]

/-- The comment test of parser.rs line 91, applied to the trimmed line. -/
def isComment (trimmed : String) : Bool :=
  strStartsWith trimmed "#" || strStartsWith trimmed "//"

/-- Embedding of the header split of parser.rs lines 123 to 127: at the
first colon, both sides trimmed; `none` when the line has no colon. -/
def header_split (trimmed : String) : Option (String × String) :=
  match splitAtColon trimmed.data with
  | some (pre, post) => some (rustTrim (String.mk pre), rustTrim (String.mk post))
  | none => none

/-- `HashMap::insert` on the association-list model: overwrite the existing
binding of the key, else append a new one. -/
def insertHeader (hs : List (String × String)) (k v : String) : List (String × String) :=
  if hs.any (fun p => p.1 = k) then
    hs.map (fun p => if p.1 = k then (k, v) else p)
  else
    hs ++ [(k, v)]

/-- Embedding of `HttpRequest` (parser.rs lines 4 to 11). -/
structure HttpRequest where
  method : String
  url : String
  headers : List (String × String)
  body : Option String
  line_number : Nat
deriving Repr, DecidableEq

/-- The mutable locals of `parse_block_lines` (parser.rs lines 74 to 79). -/
structure BlockState where
  method : String := ""
  url : String := ""
  headers : List (String × String) := []
  body_lines : List String := []
  request_line_number : Option Nat := none
  in_body : Bool := false
deriving Repr, DecidableEq

/-- One iteration of the loop of `parse_block_lines` (parser.rs lines 81 to
129) on the line at index `idx`. -/
def blockStep (parse : String → Except String ParsedUrl) (st : BlockState)
    (idx : Nat) (line : String) : BlockState :=
  let trimmed := rustTrim line
  if st.request_line_number = none ∧ trimmed = "" then st
  else if isComment trimmed then st
  else if st.request_line_number = none then
    match split_whitespace trimmed with
    | m :: u :: _ =>
      let potential_method := rustToUpper m
      if potential_method ∈ valid_methods then
        match validate_url parse u with
        | Except.ok validated_url =>
          { st with method := potential_method, url := validated_url,
                    request_line_number := some idx }
        | Except.error _ => st
      else st
    | _ => st
  else if st.in_body then
    { st with body_lines := st.body_lines ++ [line] }
  else if trimmed = "" then
    { st with in_body := true }
  else
    match header_split trimmed with
    | some (name, value) => { st with headers := insertHeader st.headers name value }
    | none => st

/-- The loop of `parse_block_lines` run over the listed lines, `idx` being
the source index of the first of them. -/
def runBlock (parse : String → Except String ParsedUrl) :
    BlockState → Nat → List String → BlockState
  | st, _, [] => st
  | st, idx, l :: ls => runBlock parse (blockStep parse st idx l) (idx + 1) ls

/-- Embedding of `parse_block_lines` (parser.rs lines 71 to 146).  The Rust
loop reads `lines[idx]` for `start_idx ≤ idx < end_idx`; the slice
`(lines.take end_idx).drop start_idx` lists exactly those lines whenever
`end_idx ≤ lines.length` (established for every call site below). -/
def parse_block_lines (parse : String → Except String ParsedUrl)
    (lines : List String) (start_idx end_idx : Nat) : Option HttpRequest :=
  let st := runBlock parse {} start_idx ((lines.take end_idx).drop start_idx)
  st.request_line_number.map (fun line_num =>
    { method := st.method
      url := st.url
      headers := st.headers
      body :=
        if st.body_lines = [] then none
        else some (rustTrim (joinLines st.body_lines))
      line_number := line_num })

/-- The block boundaries produced by the scan of `parse_http_file`
(parser.rs lines 43 to 66): `idx` is the index of the first listed line and
`start` the start of the open block.  In the Rust code `current_block_start`
is an `Option` that is initialised to `Some(0)` and reassigned only to
`Some(line_idx + 1)`, so it is never `None`; `start` is that value. -/
def blockRangesFrom : List String → Nat → Nat → List (Nat × Nat)
  | [], idx, start => [(start, idx)]
  | l :: ls, idx, start =>
    if strStartsWith (rustTrim l) "###" then
      (start, idx) :: blockRangesFrom ls (idx + 1) (idx + 1)
    else
      blockRangesFrom ls (idx + 1) start

/-- All block ranges of a document, the trailing block included. -/
def blockRanges (lines : List String) : List (Nat × Nat) :=
  blockRangesFrom lines 0 0

/-- Embedding of `parse_http_file` (parser.rs lines 38 to 69): each block
range in order is parsed independently and the successes are collected. -/
def parse_http_file (parse : String → Except String ParsedUrl)
    (content : String) : List HttpRequest :=
  let lines := rustLines content
  (blockRanges lines).filterMap (fun r => parse_block_lines parse lines r.1 r.2)

/-- Concrete instantiation of the abstract URL parser, used only to
evaluate the development on closed inputs.  It reads the text before the
first colon as the scheme, requires two slashes after it, and takes the
text up to the next slash as the host (absent when empty); on every input
appearing in a witness or counterexample below it answers as the url crate
does. -/
def demoParse (s : String) : Except String ParsedUrl :=
  match splitAtColon s.data with
  | none => Except.error "relative URL without a base"
  | some (scheme, rest) =>
    if scheme = [] then Except.error "relative URL without a base"
    else if startsWithChars rest ['/', '/'] then
      let hostPart := (rest.drop 2).takeWhile (fun c => c ≠ '/')
      Except.ok { scheme := String.mk scheme
                  host := if hostPart = [] then none else some (String.mk hostPart) }
    else Except.error "relative URL without a base"

/-- Lookup in the document-store model (`document_map.get`). -/
def storeLookup (store : List (String × String)) (uri : String) : Option String :=
  (store.find? (fun p => p.1 = uri)).map (fun p => p.2)

/-- Insert in the document-store model (`document_map.insert`). -/
def storeInsert (store : List (String × String)) (uri text : String) :
    List (String × String) :=
  if store.any (fun p => p.1 = uri) then
    store.map (fun p => if p.1 = uri then (uri, text) else p)
  else
    store ++ [(uri, text)]

/-- Embedding of `did_change` (lsp_server.rs lines 100 to 109): only the
first supplied content change is applied, wholesale; with no change the
store is left as it is. -/
def did_change_model (store : List (String × String)) (uri : String)
    (changes : List String) : List (String × String) :=
  match changes.head? with
  | some text => storeInsert store uri text
  | none => store

/-- The descriptor selection of `execute_command` (lsp_server.rs lines 272
to 274): first descriptor whose anchor equals the line exactly. -/
def selectExact (requests : List HttpRequest) (line : Nat) : Option HttpRequest :=
  (requests.filter (fun r => r.line_number = line)).head?

/-- Rust `Iterator::max_by_key` on the anchor, which keeps the last of
several maxima, rendered as a fold with an accumulator. -/
def max_by_key : Option HttpRequest → List HttpRequest → Option HttpRequest
  | acc, [] => acc
  | acc, r :: rs =>
    max_by_key
      (match acc with
       | none => some r
       | some m => if m.line_number ≤ r.line_number then some r else some m)
      rs

/-- The request selection of `code_action` (lsp_server.rs lines 115 to
168): unknown document yields none, else the descriptor with the greatest
anchor at or before the line. -/
def code_action_model (parse : String → Except String ParsedUrl)
    (store : List (String × String)) (uri : String) (line : Nat) : Option HttpRequest :=
  match storeLookup store uri with
  | none => none
  | some content =>
    max_by_key none ((parse_http_file parse content).filter (fun r => r.line_number ≤ line))

/-- Severity of a protocol message. -/
inductive MessageSeverity where
  | info
  | warning
  | error
deriving Repr, DecidableEq

/-- Outcome of the external executor call (`executor::execute_request`),
abstracted: a success carries the summary string and the formatted
transcript text, a failure its error message. -/
inductive ExecOutcome where
  | success (summary : String) (formatted : String)
  | failure (err : String)
deriving Repr, DecidableEq

/-- Outcome of the transcript sink, abstracted: opening the output file can
fail, a write on the opened file can fail, or the append succeeds. -/
inductive SinkOutcome where
  | openFailed (e : String)
  | writeFailed (e : String)
  | written
deriving Repr, DecidableEq

/-- The observable effects of one `execute_command` invocation:
whether the executor was called, whether the transcript was appended,
the `show_message` notifications (user-visible), the `log_message` log
lines, the `log_to_file` debug-log lines, and the returned value. -/
structure Effects where
  executorCalled : Bool
  transcriptWritten : Bool
  showMessages : List (MessageSeverity × String)
  logMessages : List (MessageSeverity × String)
  debugLog : List String
  result : Option String
deriving Repr, DecidableEq

/-- Embedding of the `http.sendRequest` branch of `execute_command`
(lsp_server.rs lines 258 to 364), from the document lookup on: the
executor and the sink are abstracted by their outcomes.  The debug-log
entries about the output path (line 310) are omitted; `log_to_file` calls
are otherwise kept.  Note that a failed `write_all` (line 326) only writes
the debug log: no `show_message` is issued for it. -/
def execute_command_model (parse : String → Except String ParsedUrl)
    (store : List (String × String)) (uri : String) (line : Nat)
    (exec : ExecOutcome) (sink : SinkOutcome) : Effects :=
  match storeLookup store uri with
  | none =>
    { executorCalled := false, transcriptWritten := false, showMessages := []
      logMessages := [(MessageSeverity.error, "Document not found")]
      debugLog := [], result := none }
  | some content =>
    let requests := parse_http_file parse content
    match selectExact requests line with
    | none =>
      { executorCalled := false, transcriptWritten := false, showMessages := []
        logMessages := [], debugLog := [], result := none }
    | some request =>
      let execLog := [(MessageSeverity.info,
        "Executing " ++ request.method ++ " request to " ++ request.url)]
      match exec with
      | ExecOutcome.failure e =>
        { executorCalled := true, transcriptWritten := false
          showMessages := [(MessageSeverity.error, "Request failed: " ++ e)]
          logMessages := execLog, debugLog := [], result := none }
      | ExecOutcome.success summary _ =>
        match sink with
        | SinkOutcome.openFailed e =>
          { executorCalled := true, transcriptWritten := false
            showMessages := [(MessageSeverity.error, "Failed to write response: " ++ e)]
            logMessages := execLog
            debugLog := ["Failed to open output file: " ++ e]
            result := some summary }
        | SinkOutcome.writeFailed e =>
          { executorCalled := true, transcriptWritten := false
            showMessages := []
            logMessages := execLog
            debugLog := ["Failed to write to output file: " ++ e]
            result := some summary }
        | SinkOutcome.written =>
          { executorCalled := true, transcriptWritten := true
            showMessages := [(MessageSeverity.info,
              "✓ " ++ summary ++ " - Response appended to http-responses.http")]
            logMessages := execLog
            debugLog := ["Response written successfully"]
            result := some summary }

/-! ### Helper lemmas about the block scan -/

/-- Every block range the scan emits lies between the scan start and the
end of the listed lines. -/
theorem blockRangesFrom_bounds (ls : List String) : ∀ (idx start : Nat), start ≤ idx →
    ∀ r ∈ blockRangesFrom ls idx start, start ≤ r.1 ∧ r.1 ≤ r.2 ∧ r.2 ≤ idx + ls.length := by
  induction ls with
  | nil =>
    intro idx start h r hr
    simp only [blockRangesFrom, List.mem_singleton] at hr
    subst hr
    exact ⟨le_refl _, h, by simp⟩
  | cons l ls ih =>
    intro idx start h r hr
    simp only [blockRangesFrom] at hr
    by_cases hd : strStartsWith (rustTrim l) "###"
    · rw [if_pos hd] at hr
      rcases List.mem_cons.mp hr with h1 | h2
      · subst h1
        exact ⟨le_refl _, h, by simp⟩
      · have h3 := ih (idx + 1) (idx + 1) (le_refl _) r h2
        exact ⟨by omega, h3.2.1, by simp only [List.length_cons]; omega⟩
    · rw [if_neg hd] at hr
      have h3 := ih (idx + 1) start (by omega) r hr
      exact ⟨h3.1, h3.2.1, by simp only [List.length_cons]; omega⟩

/-- C9: the parser is a total function and every index it reads is in
bounds: each block range `(s, e)` produced by the scan of
`parse_http_file` satisfies `s ≤ e ≤ lines.length`, so the slice handed to
`parse_block_lines` lists exactly the `e - s` lines the Rust loop reads
with `lines[idx]`, and the whole parse yields at most one descriptor per
block range. -/
theorem parse_http_file_total_in_bounds
    (parse : String → Except String ParsedUrl) (content : String) :
    (∀ r ∈ blockRanges (rustLines content),
      r.1 ≤ r.2 ∧ r.2 ≤ (rustLines content).length ∧
      (((rustLines content).take r.2).drop r.1).length = r.2 - r.1) ∧
    (parse_http_file parse content).length ≤ (blockRanges (rustLines content)).length := by
  constructor
  · intro r hr
    have h := blockRangesFrom_bounds (rustLines content) 0 0 (le_refl 0) r hr
    have h2 : r.2 ≤ (rustLines content).length := by simpa using h.2.2
    refine ⟨h.2.1, h2, ?_⟩
    rw [List.length_drop, List.length_take]
    omega
  · unfold parse_http_file
    exact List.length_filterMap_le _ _

/-- Witness for C9 at a concrete document of three lines whose middle line
is a delimiter: the first emitted block range is `(0, 1)`. -/
theorem parse_http_file_total_in_bounds_witness :
    (0 : Nat) ≤ 1 ∧ 1 ≤ (rustLines "a\n###\nb").length ∧
    (((rustLines "a\n###\nb").take 1).drop 0).length = 1 - 0 :=
  (parse_http_file_total_in_bounds demoParse "a\n###\nb").1 (0, 1) (by decide)

/-- C10: a change notification with an empty list of content changes
leaves the document store untouched: the store is unchanged and every
identifier still reads its previously stored text. -/
theorem did_change_empty_changes_frame (store : List (String × String)) (uri : String) :
    did_change_model store uri [] = store ∧
    ∀ docId, storeLookup (did_change_model store uri []) docId = storeLookup store docId :=
  ⟨rfl, fun _ => rfl⟩

/-! ### The exact-match selection of the command dispatcher -/

/-- What a successful exact selection yields: a descriptor anchored at the
requested line. -/
theorem selectExact_some_anchor (requests : List HttpRequest) (line : Nat)
    (req : HttpRequest) (h : selectExact requests line = some req) :
    req.line_number = line := by
  unfold selectExact at h
  cases hf : requests.filter (fun r => r.line_number = line) with
  | nil => rw [hf] at h; cases h
  | cons a as =>
    rw [hf] at h
    have h2 : a = req := by simpa using h
    subst h2
    have ha : a ∈ requests.filter (fun r => r.line_number = line) := by
      rw [hf]; exact List.mem_cons_self a as
    exact of_decide_eq_true (List.mem_filter.mp ha).2

/-- When no descriptor is anchored at the line, the exact selection is
empty. -/
theorem selectExact_none (requests : List HttpRequest) (line : Nat)
    (h : ∀ r ∈ requests, r.line_number ≠ line) :
    selectExact requests line = none := by
  unfold selectExact
  have hf : requests.filter (fun r => r.line_number = line) = [] := by
    rw [List.filter_eq_nil_iff]
    intro r hr
    simp only [decide_eq_true_eq]
    exact h r hr
  rw [hf]
  rfl

/-- C4: with a known document, the dispatcher selects only a descriptor
whose anchor equals the invoked line exactly, and when no descriptor is
anchored there it does nothing at all: the executor is not called, no
transcript is written, no message of any kind is emitted and nothing is
returned. -/
theorem execute_command_exact_or_noop
    (parse : String → Except String ParsedUrl) (store : List (String × String))
    (uri : String) (line : Nat) (exec : ExecOutcome) (sink : SinkOutcome)
    (content : String) (hc : storeLookup store uri = some content) :
    ((∀ r ∈ parse_http_file parse content, r.line_number ≠ line) →
      execute_command_model parse store uri line exec sink =
        { executorCalled := false, transcriptWritten := false, showMessages := []
          logMessages := [], debugLog := [], result := none }) ∧
    (∀ req, selectExact (parse_http_file parse content) line = some req →
      req.line_number = line) := by
  constructor
  · intro hnone
    simp only [execute_command_model, hc, selectExact_none _ _ hnone]
  · intro req hreq
    exact selectExact_some_anchor _ _ _ hreq

/-- Witness for C4: a one-request document invoked at line 3, where the
only descriptor is anchored at line 0, produces the empty effect record. -/
theorem execute_command_exact_or_noop_witness :
    execute_command_model demoParse [("file:///a.http", "GET http://example.com/")]
        "file:///a.http" 3 (ExecOutcome.success "200 OK" "out") SinkOutcome.written =
      { executorCalled := false, transcriptWritten := false, showMessages := []
        logMessages := [], debugLog := [], result := none } :=
  (execute_command_exact_or_noop demoParse [("file:///a.http", "GET http://example.com/")]
      "file:///a.http" 3 (ExecOutcome.success "200 OK" "out") SinkOutcome.written
      "GET http://example.com/" (by decide)).1 (by decide)

/-! ### The closest-preceding selection of the code-action path -/

/-- Once the accumulator holds a descriptor, the fold never returns to
none. -/
theorem max_by_key_some_ne_none (rs : List HttpRequest) :
    ∀ m : HttpRequest, max_by_key (some m) rs ≠ none := by
  induction rs with
  | nil => intro m h; cases h
  | cons r rs ih =>
    intro m
    simp only [max_by_key]
    by_cases h : m.line_number ≤ r.line_number
    · rw [if_pos h]; exact ih r
    · rw [if_neg h]; exact ih m

/-- The fold yields none exactly on the empty list. -/
theorem max_by_key_none_iff (rs : List HttpRequest) :
    max_by_key none rs = none ↔ rs = [] := by
  cases rs with
  | nil => simp [max_by_key]
  | cons r rs =>
    simp only [max_by_key]
    constructor
    · intro h; exact absurd h (max_by_key_some_ne_none rs r)
    · intro h; cases h

/-- The fold returns an element of the accumulator-plus-list that every
listed element and the accumulator are at or below, anchor-wise. -/
theorem max_by_key_spec (rs : List HttpRequest) :
    ∀ (acc : Option HttpRequest) (m : HttpRequest), max_by_key acc rs = some m →
      (acc = some m ∨ m ∈ rs) ∧ (∀ r ∈ rs, r.line_number ≤ m.line_number) ∧
      (∀ a, acc = some a → a.line_number ≤ m.line_number) := by
  induction rs with
  | nil =>
    intro acc m h
    refine ⟨Or.inl h, ⟨?_, ?_⟩⟩
    · intro r hr; cases hr
    · intro a ha
      have h2 : some a = some m := by rw [← ha]; exact h
      cases h2
      exact le_refl _
  | cons r rs ih =>
    intro acc m h
    simp only [max_by_key] at h
    cases acc with
    | none =>
      rw [show (match (none : Option HttpRequest) with
        | none => some r
        | some m => if m.line_number ≤ r.line_number then some r else some m) = some r
        from rfl] at h
      have h2 := ih (some r) m h
      refine ⟨?_, ?_, ?_⟩
      · rcases h2.1 with h3 | h3
        · cases h3; exact Or.inr (List.mem_cons_self _ _)
        · exact Or.inr (List.mem_cons_of_mem _ h3)
      · intro x hx
        rcases List.mem_cons.mp hx with h3 | h3
        · subst h3; exact h2.2.2 x rfl
        · exact h2.2.1 x h3
      · intro a ha; cases ha
    | some m0 =>
      rw [show (match some m0 with
        | none => some r
        | some m => if m.line_number ≤ r.line_number then some r else some m) =
        (if m0.line_number ≤ r.line_number then some r else some m0) from rfl] at h
      by_cases hle : m0.line_number ≤ r.line_number
      · rw [if_pos hle] at h
        have h2 := ih (some r) m h
        refine ⟨?_, ?_, ?_⟩
        · rcases h2.1 with h3 | h3
          · cases h3; exact Or.inr (List.mem_cons_self _ _)
          · exact Or.inr (List.mem_cons_of_mem _ h3)
        · intro x hx
          rcases List.mem_cons.mp hx with h3 | h3
          · subst h3; exact h2.2.2 x rfl
          · exact h2.2.1 x h3
        · intro a ha
          have haa : m0 = a := Option.some.inj ha
          subst haa
          exact le_trans hle (h2.2.2 r rfl)
      · rw [if_neg hle] at h
        have h2 := ih (some m0) m h
        refine ⟨?_, ?_, ?_⟩
        · rcases h2.1 with h3 | h3
          · exact Or.inl h3
          · exact Or.inr (List.mem_cons_of_mem _ h3)
        · intro x hx
          rcases List.mem_cons.mp hx with h3 | h3
          · subst h3
            exact le_trans (le_of_not_le hle) (h2.2.2 m0 rfl)
          · exact h2.2.1 x h3
        · intro a ha
          have haa : m0 = a := Option.some.inj ha
          subst haa
          exact h2.2.2 m0 rfl

/-- C5: the code-action affordance selects the descriptor with the
greatest anchor at or before the queried line; it returns none exactly
when the document is unknown or no descriptor is anchored at or before
the line. -/
theorem code_action_closest_preceding
    (parse : String → Except String ParsedUrl) (store : List (String × String))
    (uri : String) (line : Nat) :
    (storeLookup store uri = none → code_action_model parse store uri line = none) ∧
    (∀ content, storeLookup store uri = some content →
      ((code_action_model parse store uri line = none ↔
        ∀ r ∈ parse_http_file parse content, line < r.line_number) ∧
       (∀ req, code_action_model parse store uri line = some req →
         req ∈ parse_http_file parse content ∧ req.line_number ≤ line ∧
         ∀ r ∈ parse_http_file parse content, r.line_number ≤ line →
           r.line_number ≤ req.line_number))) := by
  constructor
  · intro h
    simp only [code_action_model, h]
  · intro content hc
    constructor
    · rw [show code_action_model parse store uri line =
          max_by_key none ((parse_http_file parse content).filter
            (fun r => r.line_number ≤ line)) by simp only [code_action_model, hc]]
      rw [max_by_key_none_iff, List.filter_eq_nil_iff]
      constructor
      · intro h r hr
        have h2 := h r hr
        simp only [decide_eq_true_eq] at h2
        omega
      · intro h r hr
        simp only [decide_eq_true_eq]
        have h2 := h r hr
        omega
    · intro req hreq
      rw [show code_action_model parse store uri line =
          max_by_key none ((parse_http_file parse content).filter
            (fun r => r.line_number ≤ line)) by simp only [code_action_model, hc]] at hreq
      have h2 := max_by_key_spec _ none req hreq
      have hmem : req ∈ (parse_http_file parse content).filter
          (fun r => r.line_number ≤ line) := by
        rcases h2.1 with h3 | h3
        · cases h3
        · exact h3
      have hm := List.mem_filter.mp hmem
      refine ⟨hm.1, of_decide_eq_true hm.2, ?_⟩
      intro r hr hrle
      exact h2.2.1 r (List.mem_filter.mpr ⟨hr, decide_eq_true hrle⟩)

/-- Witness for C5 at a two-request document queried at line 5: the second
request, anchored at line 2, is the selected closest preceding one. -/
theorem code_action_closest_preceding_witness :
    ({ method := "GET", url := "http://example.com/b", headers := [], body := none,
       line_number := 2 } : HttpRequest) ∈
      parse_http_file demoParse "GET http://example.com/a\n###\nGET http://example.com/b" ∧
    ({ method := "GET", url := "http://example.com/b", headers := [], body := none,
       line_number := 2 } : HttpRequest).line_number ≤ 5 := by
  have h := ((code_action_closest_preceding demoParse
      [("file:///a.http", "GET http://example.com/a\n###\nGET http://example.com/b")]
      "file:///a.http" 5).2
      "GET http://example.com/a\n###\nGET http://example.com/b" (by decide)).2
      { method := "GET", url := "http://example.com/b", headers := [], body := none,
        line_number := 2 } (by decide)
  exact ⟨h.1, h.2.1⟩

/-! ### URL validation -/

/-- C6: `validate_url` accepts a string exactly when it is at most 2048
bytes long, the URL parser accepts it, the scheme is http or https, and a
host is present; an accepted string is returned unchanged, and each of the
four rejection causes produces its own human-readable message. -/
theorem validate_url_spec (parse : String → Except String ParsedUrl) (u : String) :
    ((∃ s, validate_url parse u = Except.ok s) ↔
      (byteLen u ≤ 2048 ∧ ∃ p, parse u = Except.ok p ∧
        (p.scheme = "http" ∨ p.scheme = "https") ∧ p.host ≠ none)) ∧
    (∀ s, validate_url parse u = Except.ok s → s = u) ∧
    (byteLen u > 2048 →
      validate_url parse u =
        Except.error ("URL too long: " ++ toString (byteLen u) ++ " characters (max 2048)")) ∧
    (∀ e, byteLen u ≤ 2048 → parse u = Except.error e →
      validate_url parse u = Except.error ("Invalid URL: " ++ e)) ∧
    (∀ p, byteLen u ≤ 2048 → parse u = Except.ok p →
      p.scheme ≠ "http" → p.scheme ≠ "https" →
      validate_url parse u =
        Except.error ("Unsupported URL scheme: \'" ++ p.scheme ++
          "\'. Only http:// and https:// are allowed")) ∧
    (∀ p, byteLen u ≤ 2048 → parse u = Except.ok p →
      (p.scheme = "http" ∨ p.scheme = "https") → p.host = none →
      validate_url parse u = Except.error "URL must have a valid host") := by
  by_cases hlen : byteLen u > 2048
  · have hv : validate_url parse u =
        Except.error ("URL too long: " ++ toString (byteLen u) ++ " characters (max 2048)") := by
      unfold validate_url
      rw [if_pos hlen]
    refine ⟨?_, ?_, fun _ => hv, ?_, ?_, ?_⟩
    · constructor
      · rintro ⟨s, hs⟩
        rw [hv] at hs
        cases hs
      · rintro ⟨h1, -⟩
        omega
    · intro s hs
      rw [hv] at hs
      cases hs
    · intro e h1 _
      omega
    · intro p h1 _ _ _
      omega
    · intro p h1 _ _ _
      omega
  · have hlen2 : ¬ byteLen u > 2048 := hlen
    cases hp : parse u with
    | error e =>
      have hv : validate_url parse u = Except.error ("Invalid URL: " ++ e) := by
        unfold validate_url
        rw [if_neg hlen2, hp]
      refine ⟨?_, ?_, ?_, ?_, ?_, ?_⟩
      · constructor
        · rintro ⟨s, hs⟩
          rw [hv] at hs
          cases hs
        · rintro ⟨-, p, hp2, -⟩
          cases hp2
      · intro s hs
        rw [hv] at hs
        cases hs
      · intro h; omega
      · intro e2 _ hp2
        cases hp2
        exact hv
      · intro p _ hp2
        cases hp2
      · intro p _ hp2
        cases hp2
    | ok p =>
      have hv0 : validate_url parse u =
          (if p.scheme ≠ "http" ∧ p.scheme ≠ "https" then
            Except.error ("Unsupported URL scheme: \'" ++ p.scheme ++
              "\'. Only http:// and https:// are allowed")
          else if p.host = none then Except.error "URL must have a valid host"
          else Except.ok u) := by
        unfold validate_url
        rw [if_neg hlen2, hp]
      by_cases hs : p.scheme ≠ "http" ∧ p.scheme ≠ "https"
      · have hv : validate_url parse u =
            Except.error ("Unsupported URL scheme: \'" ++ p.scheme ++
              "\'. Only http:// and https:// are allowed") := by
          rw [hv0, if_pos hs]
        refine ⟨?_, ?_, ?_, ?_, ?_, ?_⟩
        · constructor
          · rintro ⟨s, hsk⟩
            rw [hv] at hsk
            cases hsk
          · rintro ⟨-, q, hq, hsch, -⟩
            cases hq
            rcases hsch with h | h
            · exact absurd h hs.1
            · exact absurd h hs.2
        · intro s hsk
          rw [hv] at hsk
          cases hsk
        · intro h; omega
        · intro e _ hp2
          cases hp2
        · intro q _ hp2 _ _
          cases hp2
          exact hv
        · intro q _ hp2 hsch _
          cases hp2
          rcases hsch with h | h
          · exact absurd h hs.1
          · exact absurd h hs.2
      · have hsch : p.scheme = "http" ∨ p.scheme = "https" := by
          by_cases h1 : p.scheme = "http"
          · exact Or.inl h1
          · right
            by_contra h2
            exact hs ⟨h1, h2⟩
        cases hh : p.host with
        | none =>
          have hv : validate_url parse u = Except.error "URL must have a valid host" := by
            rw [hv0, if_neg hs, if_pos hh]
          refine ⟨?_, ?_, ?_, ?_, ?_, ?_⟩
          · constructor
            · rintro ⟨s, hsk⟩
              rw [hv] at hsk
              cases hsk
            · rintro ⟨-, q, hq, -, hhost⟩
              cases hq
              exact absurd hh hhost
          · intro s hsk
            rw [hv] at hsk
            cases hsk
          · intro h; omega
          · intro e _ hp2
            cases hp2
          · intro q _ hp2 h1 h2
            cases hp2
            rcases hsch with h | h
            · exact absurd h h1
            · exact absurd h h2
          · intro q _ hp2 _ hhost
            cases hp2
            exact hv
        | some host =>
          have hh2 : ¬ p.host = none := by rw [hh]; intro h; cases h
          have hv : validate_url parse u = Except.ok u := by
            rw [hv0, if_neg hs, if_neg hh2]
          refine ⟨?_, ?_, ?_, ?_, ?_, ?_⟩
          · constructor
            · intro _
              exact ⟨by omega, p, rfl, hsch, hh2⟩
            · intro _
              exact ⟨u, hv⟩
          · intro s hsk
            rw [hv] at hsk
            cases hsk
            rfl
          · intro h; omega
          · intro e _ hp2
            cases hp2
          · intro q _ hp2 h1 h2
            cases hp2
            rcases hsch with h | h
            · exact absurd h h1
            · exact absurd h h2
          · intro q _ hp2 _ hhost
            cases hp2
            exact absurd hhost hh2

/-- Witness for C6: the validator accepts a well-formed http URL and
returns it unchanged, and rejects a file scheme with the scheme message. -/
theorem validate_url_spec_witness :
    (∃ s, validate_url demoParse "http://example.com" = Except.ok s) ∧
    validate_url demoParse "file:///etc/passwd" =
      Except.error ("Unsupported URL scheme: \'file\'. Only http:// and https:// are allowed") := by
  constructor
  · exact (validate_url_spec demoParse "http://example.com").1.mpr
      ⟨by decide, { scheme := "http", host := some "example.com" }, by decide,
        Or.inl rfl, by decide⟩
  · exact (validate_url_spec demoParse "file:///etc/passwd").2.2.2.2.1
      { scheme := "file", host := none } (by decide) (by decide)
      (by decide) (by decide)

/-! ### Sink-level error reporting of the dispatcher -/

/-- C8 counterexample: with a known document, a matched descriptor and a
successful HTTP call, a failed write on the opened transcript file
produces NO user-visible notification at all — contradicting the claim
that a failure to write is surfaced as a visible failure notification —
while the success summary is still returned. -/
theorem execute_command_write_failure_not_surfaced :
    (execute_command_model demoParse [("file:///a.http", "GET http://example.com/")]
        "file:///a.http" 0 (ExecOutcome.success "200 OK" "out")
        (SinkOutcome.writeFailed "disk full")).showMessages = [] ∧
    (execute_command_model demoParse [("file:///a.http", "GET http://example.com/")]
        "file:///a.http" 0 (ExecOutcome.success "200 OK" "out")
        (SinkOutcome.writeFailed "disk full")).debugLog =
      ["Failed to write to output file: disk full"] ∧
    (execute_command_model demoParse [("file:///a.http", "GET http://example.com/")]
        "file:///a.http" 0 (ExecOutcome.success "200 OK" "out")
        (SinkOutcome.writeFailed "disk full")).result = some "200 OK" := by
  decide

/-- C8 as amended: when the HTTP call succeeds, a failure to OPEN the
transcript file is surfaced as a visible error notification; a failure to
WRITE to the already-opened file is recorded only in the debug log, with
no visible notification; in every sink outcome the HTTP call is still
reported as having succeeded: the success summary is returned
independently of the persistence outcome. -/
theorem execute_command_sink_reporting
    (parse : String → Except String ParsedUrl) (store : List (String × String))
    (uri : String) (line : Nat) (content : String) (req : HttpRequest)
    (summary formatted e : String)
    (hc : storeLookup store uri = some content)
    (hsel : selectExact (parse_http_file parse content) line = some req) :
    ((execute_command_model parse store uri line (ExecOutcome.success summary formatted)
        (SinkOutcome.openFailed e)).showMessages =
          [(MessageSeverity.error, "Failed to write response: " ++ e)] ∧
     (execute_command_model parse store uri line (ExecOutcome.success summary formatted)
        (SinkOutcome.openFailed e)).result = some summary) ∧
    ((execute_command_model parse store uri line (ExecOutcome.success summary formatted)
        (SinkOutcome.writeFailed e)).showMessages = [] ∧
     (execute_command_model parse store uri line (ExecOutcome.success summary formatted)
        (SinkOutcome.writeFailed e)).debugLog = ["Failed to write to output file: " ++ e] ∧
     (execute_command_model parse store uri line (ExecOutcome.success summary formatted)
        (SinkOutcome.writeFailed e)).result = some summary) ∧
    ((execute_command_model parse store uri line (ExecOutcome.success summary formatted)
        SinkOutcome.written).result = some summary) := by
  have hm : ∀ sink : SinkOutcome,
      execute_command_model parse store uri line (ExecOutcome.success summary formatted) sink =
        match sink with
        | SinkOutcome.openFailed e2 =>
          { executorCalled := true, transcriptWritten := false
            showMessages := [(MessageSeverity.error, "Failed to write response: " ++ e2)]
            logMessages := [(MessageSeverity.info,
              "Executing " ++ req.method ++ " request to " ++ req.url)]
            debugLog := ["Failed to open output file: " ++ e2]
            result := some summary }
        | SinkOutcome.writeFailed e2 =>
          { executorCalled := true, transcriptWritten := false
            showMessages := []
            logMessages := [(MessageSeverity.info,
              "Executing " ++ req.method ++ " request to " ++ req.url)]
            debugLog := ["Failed to write to output file: " ++ e2]
            result := some summary }
        | SinkOutcome.written =>
          { executorCalled := true, transcriptWritten := true
            showMessages := [(MessageSeverity.info,
              "✓ " ++ summary ++ " - Response appended to http-responses.http")]
            logMessages := [(MessageSeverity.info,
              "Executing " ++ req.method ++ " request to " ++ req.url)]
            debugLog := ["Response written successfully"]
            result := some summary } := by
    intro sink
    simp only [execute_command_model, hc, hsel]
  refine ⟨?_, ?_, ?_⟩
  · rw [hm (SinkOutcome.openFailed e)]
    exact ⟨rfl, rfl⟩
  · rw [hm (SinkOutcome.writeFailed e)]
    exact ⟨rfl, rfl, rfl⟩
  · rw [hm SinkOutcome.written]

/-- Witness for C8 at a concrete document: an open failure is surfaced as
an error notification and the summary is still returned. -/
theorem execute_command_sink_reporting_witness :
    (execute_command_model demoParse [("file:///a.http", "GET http://example.com/")]
        "file:///a.http" 0 (ExecOutcome.success "200 OK" "out")
        (SinkOutcome.openFailed "permission denied")).showMessages =
      [(MessageSeverity.error, "Failed to write response: " ++ "permission denied")] ∧
    (execute_command_model demoParse [("file:///a.http", "GET http://example.com/")]
        "file:///a.http" 0 (ExecOutcome.success "200 OK" "out")
        (SinkOutcome.openFailed "permission denied")).result = some "200 OK" :=
  (execute_command_sink_reporting demoParse [("file:///a.http", "GET http://example.com/")]
      "file:///a.http" 0 "GET http://example.com/"
      { method := "GET", url := "http://example.com/", headers := [], body := none,
        line_number := 0 }
      "200 OK" "out" "permission denied" (by decide) (by decide)).1

/-! ### Equations for the individual branches of the block-scan loop -/

/-- A blank line before the request line is skipped. -/
theorem blockStep_skip_blank (parse : String → Except String ParsedUrl)
    (st : BlockState) (idx : Nat) (line : String)
    (h3 : st.request_line_number = none) (ht : rustTrim line = "") :
    blockStep parse st idx line = st := by
  simp only [blockStep]
  rw [if_pos ⟨h3, ht⟩]

/-- A comment line is skipped, wherever it occurs in the block. -/
theorem blockStep_comment (parse : String → Except String ParsedUrl)
    (st : BlockState) (idx : Nat) (line : String)
    (hc : isComment (rustTrim line) = true) :
    blockStep parse st idx line = st := by
  have h1 : ¬(st.request_line_number = none ∧ rustTrim line = "") := by
    rintro ⟨-, ht⟩
    rw [ht] at hc
    exact absurd hc (by decide)
  simp only [blockStep]
  rw [if_neg h1, if_pos hc]

/-- A line with a valid method token and a URL the validator accepts
becomes the request line: the state records the upper-cased method, the
validated URL and the line index. -/
theorem blockStep_request (parse : String → Except String ParsedUrl)
    (st : BlockState) (idx : Nat) (line : String) (m u : String)
    (rest : List String) (vurl : String)
    (h3 : st.request_line_number = none)
    (hnc : isComment (rustTrim line) = false)
    (hw : split_whitespace (rustTrim line) = m :: u :: rest)
    (h4 : rustToUpper m ∈ valid_methods)
    (hv : validate_url parse u = Except.ok vurl) :
    blockStep parse st idx line =
      { st with method := rustToUpper m, url := vurl,
                request_line_number := some idx } := by
  have ht : ¬ rustTrim line = "" := by
    intro ht
    rw [ht] at hw
    have h0 : split_whitespace "" = [] := rfl
    rw [h0] at hw
    cases hw
  have h1 : ¬(st.request_line_number = none ∧ rustTrim line = "") := by
    rintro ⟨-, ht2⟩
    exact ht ht2
  have hnc2 : ¬ isComment (rustTrim line) = true := by
    rw [hnc]
    intro h
    cases h
  simp only [blockStep]
  rw [if_neg h1, if_neg hnc2, if_pos h3, hw]
  show (if rustToUpper m ∈ valid_methods then
          match validate_url parse u with
          | Except.ok validated_url =>
            { st with method := rustToUpper m, url := validated_url,
                      request_line_number := some idx }
          | Except.error _ => st
        else st) = _
  rw [if_pos h4, hv]

/-- A candidate request line whose URL the validator rejects is skipped:
the state is unchanged and the scan continues. -/
theorem blockStep_bad_url (parse : String → Except String ParsedUrl)
    (st : BlockState) (idx : Nat) (line : String) (m u : String)
    (rest : List String) (err : String)
    (h3 : st.request_line_number = none)
    (hnc : isComment (rustTrim line) = false)
    (hw : split_whitespace (rustTrim line) = m :: u :: rest)
    (h4 : rustToUpper m ∈ valid_methods)
    (hv : validate_url parse u = Except.error err) :
    blockStep parse st idx line = st := by
  have ht : ¬ rustTrim line = "" := by
    intro ht
    rw [ht] at hw
    have h0 : split_whitespace "" = [] := rfl
    rw [h0] at hw
    cases hw
  have h1 : ¬(st.request_line_number = none ∧ rustTrim line = "") := by
    rintro ⟨-, ht2⟩
    exact ht ht2
  have hnc2 : ¬ isComment (rustTrim line) = true := by
    rw [hnc]
    intro h
    cases h
  simp only [blockStep]
  rw [if_neg h1, if_neg hnc2, if_pos h3, hw]
  show (if rustToUpper m ∈ valid_methods then
          match validate_url parse u with
          | Except.ok validated_url =>
            { st with method := rustToUpper m, url := validated_url,
                      request_line_number := some idx }
          | Except.error _ => st
        else st) = _
  rw [if_pos h4, hv]

/-- A line whose first token is not a valid method leaves the state
unchanged while the request line is still unfound. -/
theorem blockStep_not_method (parse : String → Except String ParsedUrl)
    (st : BlockState) (idx : Nat) (line : String) (m u : String)
    (rest : List String)
    (h3 : st.request_line_number = none)
    (hnc : isComment (rustTrim line) = false)
    (hw : split_whitespace (rustTrim line) = m :: u :: rest)
    (h4 : ¬ rustToUpper m ∈ valid_methods) :
    blockStep parse st idx line = st := by
  have ht : ¬ rustTrim line = "" := by
    intro ht
    rw [ht] at hw
    have h0 : split_whitespace "" = [] := rfl
    rw [h0] at hw
    cases hw
  have h1 : ¬(st.request_line_number = none ∧ rustTrim line = "") := by
    rintro ⟨-, ht2⟩
    exact ht ht2
  have hnc2 : ¬ isComment (rustTrim line) = true := by
    rw [hnc]
    intro h
    cases h
  simp only [blockStep]
  rw [if_neg h1, if_neg hnc2, if_pos h3, hw]
  show (if rustToUpper m ∈ valid_methods then
          match validate_url parse u with
          | Except.ok validated_url =>
            { st with method := rustToUpper m, url := validated_url,
                      request_line_number := some idx }
          | Except.error _ => st
        else st) = _
  rw [if_neg h4]

/-- A line with fewer than two whitespace tokens leaves the state
unchanged while the request line is still unfound. -/
theorem blockStep_few_tokens (parse : String → Except String ParsedUrl)
    (st : BlockState) (idx : Nat) (line : String)
    (h3 : st.request_line_number = none)
    (hnc : isComment (rustTrim line) = false)
    (hw : split_whitespace (rustTrim line) = [] ∨
      ∃ m, split_whitespace (rustTrim line) = [m]) :
    blockStep parse st idx line = st := by
  by_cases ht : rustTrim line = ""
  · exact blockStep_skip_blank parse st idx line h3 ht
  · have h1 : ¬(st.request_line_number = none ∧ rustTrim line = "") := by
      rintro ⟨-, ht2⟩
      exact ht ht2
    have hnc2 : ¬ isComment (rustTrim line) = true := by
      rw [hnc]
      intro h
      cases h
    simp only [blockStep]
    rw [if_neg h1, if_neg hnc2, if_pos h3]
    rcases hw with hw | ⟨m, hw⟩
    · rw [hw]
    · rw [hw]

/-- Once the request line is found and the body has started, every
non-comment line is appended to the body verbatim. -/
theorem blockStep_body (parse : String → Except String ParsedUrl)
    (st : BlockState) (idx : Nat) (line : String)
    (h3 : ¬ st.request_line_number = none)
    (hnc : isComment (rustTrim line) = false)
    (hb : st.in_body = true) :
    blockStep parse st idx line = { st with body_lines := st.body_lines ++ [line] } := by
  have h1 : ¬(st.request_line_number = none ∧ rustTrim line = "") := by
    rintro ⟨h, -⟩
    exact h3 h
  have hnc2 : ¬ isComment (rustTrim line) = true := by
    rw [hnc]
    intro h
    cases h
  simp only [blockStep]
  rw [if_neg h1, if_neg hnc2, if_neg h3, if_pos hb]

/-- The first blank line after the request line starts the body. -/
theorem blockStep_blank (parse : String → Except String ParsedUrl)
    (st : BlockState) (idx : Nat) (line : String)
    (h3 : ¬ st.request_line_number = none)
    (hb : st.in_body = false)
    (ht : rustTrim line = "") :
    blockStep parse st idx line = { st with in_body := true } := by
  have h1 : ¬(st.request_line_number = none ∧ rustTrim line = "") := by
    rintro ⟨h, -⟩
    exact h3 h
  have hnc2 : ¬ isComment (rustTrim line) = true := by
    rw [ht]
    intro h
    exact absurd h (by decide)
  have hb2 : ¬ st.in_body = true := by
    rw [hb]
    intro h
    cases h
  simp only [blockStep]
  rw [if_neg h1, if_neg hnc2, if_neg h3, if_neg hb2, if_pos ht]

/-- A non-blank non-comment line in the header section updates only the
header mapping (or, with no colon, is ignored). -/
theorem blockStep_header_line (parse : String → Except String ParsedUrl)
    (st : BlockState) (idx : Nat) (line : String)
    (h3 : ¬ st.request_line_number = none)
    (hnc : isComment (rustTrim line) = false)
    (hb : st.in_body = false)
    (ht : ¬ rustTrim line = "") :
    blockStep parse st idx line =
      (match header_split (rustTrim line) with
       | some (name, value) => { st with headers := insertHeader st.headers name value }
       | none => st) := by
  have h1 : ¬(st.request_line_number = none ∧ rustTrim line = "") := by
    rintro ⟨h, -⟩
    exact h3 h
  have hnc2 : ¬ isComment (rustTrim line) = true := by
    rw [hnc]
    intro h
    cases h
  have hb2 : ¬ st.in_body = true := by
    rw [hb]
    intro h
    cases h
  simp only [blockStep]
  rw [if_neg h1, if_neg hnc2, if_neg h3, if_neg hb2, if_neg ht]

/-! ### The anchor invariant of the parser -/

/-- Each loop iteration either leaves the request-line fields unchanged or
records the current line as the request line, taking as method the
upper-cased first whitespace token of that line, which is a valid method,
with a URL the validator accepted. -/
theorem blockStep_cases (parse : String → Except String ParsedUrl)
    (st : BlockState) (idx : Nat) (line : String) :
    ((blockStep parse st idx line).request_line_number = st.request_line_number ∧
     (blockStep parse st idx line).method = st.method) ∨
    (st.request_line_number = none ∧
     (blockStep parse st idx line).request_line_number = some idx ∧
     ∃ tok u rest, split_whitespace (rustTrim line) = tok :: u :: rest ∧
       (blockStep parse st idx line).method = rustToUpper tok ∧
       rustToUpper tok ∈ valid_methods ∧
       ∃ vurl, validate_url parse u = Except.ok vurl ∧
         (blockStep parse st idx line).url = vurl) := by
  by_cases hc : isComment (rustTrim line) = true
  · rw [blockStep_comment parse st idx line hc]
    exact Or.inl ⟨rfl, rfl⟩
  · have hnc : isComment (rustTrim line) = false := by
      rwa [Bool.not_eq_true] at hc
    by_cases h3 : st.request_line_number = none
    · by_cases ht : rustTrim line = ""
      · rw [blockStep_skip_blank parse st idx line h3 ht]
        exact Or.inl ⟨rfl, rfl⟩
      · cases hw : split_whitespace (rustTrim line) with
        | nil =>
          rw [blockStep_few_tokens parse st idx line h3 hnc (Or.inl hw)]
          exact Or.inl ⟨rfl, rfl⟩
        | cons m rest1 =>
          cases rest1 with
          | nil =>
            rw [blockStep_few_tokens parse st idx line h3 hnc (Or.inr ⟨m, hw⟩)]
            exact Or.inl ⟨rfl, rfl⟩
          | cons u rest =>
            by_cases h4 : rustToUpper m ∈ valid_methods
            · cases hv : validate_url parse u with
              | ok vurl =>
                rw [blockStep_request parse st idx line m u rest vurl h3 hnc hw h4 hv]
                exact Or.inr ⟨h3, rfl, m, u, rest, rfl, rfl, h4, vurl, hv, rfl⟩
              | error err =>
                rw [blockStep_bad_url parse st idx line m u rest err h3 hnc hw h4 hv]
                exact Or.inl ⟨rfl, rfl⟩
            · rw [blockStep_not_method parse st idx line m u rest h3 hnc hw h4]
              exact Or.inl ⟨rfl, rfl⟩
    · by_cases hb : st.in_body = true
      · rw [blockStep_body parse st idx line h3 hnc hb]
        exact Or.inl ⟨rfl, rfl⟩
      · have hb2 : st.in_body = false := by
          rwa [Bool.not_eq_true] at hb
        by_cases ht : rustTrim line = ""
        · rw [blockStep_blank parse st idx line h3 hb2 ht]
          exact Or.inl ⟨rfl, rfl⟩
        · rw [blockStep_header_line parse st idx line h3 hnc hb2 ht]
          cases hh : header_split (rustTrim line) with
          | some nv =>
            obtain ⟨n, v⟩ := nv
            exact Or.inl ⟨rfl, rfl⟩
          | none =>
            exact Or.inl ⟨rfl, rfl⟩

/-- Where the recorded request line of a finished block scan comes from:
either it was already recorded when the scan started, or it is one of the
scanned lines, whose upper-cased first whitespace token is the resulting
method and a valid method. -/
theorem runBlock_request_origin (parse : String → Except String ParsedUrl) :
    ∀ (ls : List String) (st : BlockState) (idx i : Nat),
      (runBlock parse st idx ls).request_line_number = some i →
      (st.request_line_number = some i ∧ (runBlock parse st idx ls).method = st.method) ∨
      (idx ≤ i ∧ i - idx < ls.length ∧
        ∃ tok u rest, split_whitespace (rustTrim (ls.getD (i - idx) "")) = tok :: u :: rest ∧
          (runBlock parse st idx ls).method = rustToUpper tok ∧
          rustToUpper tok ∈ valid_methods) := by
  intro ls
  induction ls with
  | nil =>
    intro st idx i h
    exact Or.inl ⟨h, rfl⟩
  | cons l ls ih =>
    intro st idx i h
    rcases ih (blockStep parse st idx l) (idx + 1) i h with ⟨hrln, hm⟩ | h2
    · rcases blockStep_cases parse st idx l with ⟨hp1, hp2⟩ | hset
      · left
        constructor
        · rw [← hp1]
          exact hrln
        · exact hm.trans hp2
      · obtain ⟨-, hp1, tok, u, rest, hw, hm2, hval, -⟩ := hset
        right
        have hi : i = idx := by
          rw [hp1] at hrln
          exact (Option.some.inj hrln).symm
        subst hi
        refine ⟨le_refl _, by simp, tok, u, rest, ?_, hm.trans hm2, hval⟩
        simp only [Nat.sub_self, List.getD_cons_zero]
        exact hw
    · obtain ⟨hge, hlt, tok, u, rest, hw, hm, hval⟩ := h2
      right
      refine ⟨by omega, ?_, tok, u, rest, ?_, hm, hval⟩
      · simp only [List.length_cons]
        omega
      · have hcv : i - idx = (i - (idx + 1)) + 1 := by omega
        rw [hcv, List.getD_cons_succ]
        exact hw

/-- The slice handed to `parse_block_lines` reads, at offset `k`, the line
at source index `s + k`, as the Rust loop does. -/
theorem slice_getD {α : Type} (l : List α) (s e k : Nat) (d : α) (h : s + k < e) :
    ((l.take e).drop s).getD k d = l.getD (s + k) d := by
  rw [List.getD_eq_getElem?_getD, List.getD_eq_getElem?_getD, List.getElem?_drop,
    List.getElem?_take, if_pos h]

/-- C7: every descriptor the parser yields is anchored at an in-bounds
line of the document whose first whitespace-delimited token, upper-cased,
is exactly the descriptor's method, and that method is in the fixed
method set. -/
theorem parse_http_file_anchor_method (parse : String → Except String ParsedUrl)
    (content : String) (req : HttpRequest)
    (hreq : req ∈ parse_http_file parse content) :
    req.line_number < (rustLines content).length ∧
    ∃ tok u rest,
      split_whitespace (rustTrim ((rustLines content).getD req.line_number "")) =
        tok :: u :: rest ∧
      req.method = rustToUpper tok ∧ req.method ∈ valid_methods := by
  unfold parse_http_file at hreq
  rw [List.mem_filterMap] at hreq
  obtain ⟨r, hr, hparse⟩ := hreq
  have hb := blockRangesFrom_bounds (rustLines content) 0 0 (le_refl 0) r hr
  have hlen : r.2 ≤ (rustLines content).length := by
    have h2 := hb.2.2
    omega
  simp only [parse_block_lines, Option.map_eq_some'] at hparse
  obtain ⟨ln, hln, hreq2⟩ := hparse
  have hline : req.line_number = ln := by rw [← hreq2]
  have hmethod : req.method =
      (runBlock parse {} r.1 (((rustLines content).take r.2).drop r.1)).method := by
    rw [← hreq2]
  rcases runBlock_request_origin parse _ {} r.1 ln hln with ⟨h1, -⟩ | h2
  · cases h1
  · obtain ⟨hge, hlt, tok, u, rest, hw, hm, hval⟩ := h2
    have hslice : (((rustLines content).take r.2).drop r.1).length = r.2 - r.1 := by
      rw [List.length_drop, List.length_take]
      omega
    rw [hslice] at hlt
    have hg : (((rustLines content).take r.2).drop r.1).getD (ln - r.1) "" =
        (rustLines content).getD ln "" := by
      have h3 := slice_getD (rustLines content) r.1 r.2 (ln - r.1) "" (by omega)
      rw [h3]
      congr 1
      omega
    rw [hg] at hw
    rw [hline, hmethod]
    refine ⟨by omega, tok, u, rest, hw, hm, ?_⟩
    rw [hm]
    exact hval

/-- Witness for C7: the single descriptor of a one-line document is
anchored at line 0, whose first token GET upper-cases to its method. -/
theorem parse_http_file_anchor_method_witness :
    ({ method := "GET", url := "http://example.com/", headers := [], body := none,
       line_number := 0 } : HttpRequest).line_number <
      (rustLines "GET http://example.com/").length ∧
    ∃ tok u rest,
      split_whitespace (rustTrim ((rustLines "GET http://example.com/").getD
        ({ method := "GET", url := "http://example.com/", headers := [], body := none,
           line_number := 0 } : HttpRequest).line_number "")) = tok :: u :: rest ∧
      ({ method := "GET", url := "http://example.com/", headers := [], body := none,
         line_number := 0 } : HttpRequest).method = rustToUpper tok ∧
      ({ method := "GET", url := "http://example.com/", headers := [], body := none,
         line_number := 0 } : HttpRequest).method ∈ valid_methods :=
  parse_http_file_anchor_method demoParse "GET http://example.com/"
    { method := "GET", url := "http://example.com/", headers := [], body := none,
      line_number := 0 } (by decide)

/-! ### Invalid request lines and the body computation -/

/-- C1 as amended: a candidate request line (valid method token, at least
two tokens) whose URL fails validation is skipped with the scan state
unchanged, so the loop continues scanning and a LATER line of the same
block may still become the request line; the block is not discarded as a
whole. -/
theorem invalid_url_line_skipped (parse : String → Except String ParsedUrl)
    (st : BlockState) (idx : Nat) (line : String) (m u : String)
    (rest : List String) (err : String)
    (h3 : st.request_line_number = none)
    (hnc : isComment (rustTrim line) = false)
    (hw : split_whitespace (rustTrim line) = m :: u :: rest)
    (h4 : rustToUpper m ∈ valid_methods)
    (hv : validate_url parse u = Except.error err) :
    blockStep parse st idx line = st ∧
    ∀ ls, runBlock parse st idx (line :: ls) = runBlock parse st (idx + 1) ls := by
  have h1 := blockStep_bad_url parse st idx line m u rest err h3 hnc hw h4 hv
  refine ⟨h1, ?_⟩
  intro ls
  show runBlock parse (blockStep parse st idx line) (idx + 1) ls = _
  rw [h1]

/-- C1 counterexample: in a block whose first candidate request line
carries a URL that fails validation (file scheme), the parser still
yields a descriptor for the block, anchored at the later line 1 — the
block is not discarded and a later line is treated as the request line. -/
theorem invalid_url_fallback_counterexample :
    validate_url demoParse "file:///etc/passwd" =
      Except.error ("Unsupported URL scheme: \'file\'. Only http:// and https:// are allowed") ∧
    (parse_http_file demoParse "GET file:///etc/passwd\nGET http://example.com/").map
      (fun r => (r.method, r.line_number)) = [("GET", 1)] := by
  decide

/-- Witness for C1: skipping the invalid file-URL line leaves the initial
scan state unchanged. -/
theorem invalid_url_line_skipped_witness :
    blockStep demoParse {} 0 "GET file:///etc/passwd" = {} :=
  (invalid_url_line_skipped demoParse {} 0 "GET file:///etc/passwd" "GET"
      "file:///etc/passwd" []
      "Unsupported URL scheme: \'file\'. Only http:// and https:// are allowed"
      rfl (by decide) (by decide) (by decide) (by decide)).1

/-- Running the loop over a concatenation runs it over the first part and
continues over the second at the shifted index. -/
theorem runBlock_append (parse : String → Except String ParsedUrl) (as : List String) :
    ∀ (bs : List String) (st : BlockState) (idx : Nat),
      runBlock parse st idx (as ++ bs) =
        runBlock parse (runBlock parse st idx as) (idx + as.length) bs := by
  induction as with
  | nil =>
    intro bs st idx
    rfl
  | cons a as ih =>
    intro bs st idx
    show runBlock parse (blockStep parse st idx a) (idx + 1) (as ++ bs) = _
    rw [ih bs (blockStep parse st idx a) (idx + 1)]
    congr 1
    simp only [List.length_cons]
    omega

/-- Once the request line is recorded and the body has started, the rest
of the loop appends exactly the non-comment lines, in order and verbatim,
to the body. -/
theorem runBlock_in_body (parse : String → Except String ParsedUrl) (ls : List String) :
    ∀ (st : BlockState) (idx j : Nat),
      st.request_line_number = some j → st.in_body = true →
      runBlock parse st idx ls =
        { st with body_lines := st.body_lines ++
            ls.filter (fun l => !(isComment (rustTrim l))) } := by
  induction ls with
  | nil =>
    intro st idx j h1 h2
    show st = _
    simp
  | cons l ls ih =>
    intro st idx j h1 h2
    by_cases hc : isComment (rustTrim l) = true
    · show runBlock parse (blockStep parse st idx l) (idx + 1) ls = _
      rw [blockStep_comment parse st idx l hc, ih st (idx + 1) j h1 h2]
      simp [List.filter_cons, hc]
    · have hnc : isComment (rustTrim l) = false := by
        rwa [Bool.not_eq_true] at hc
      show runBlock parse (blockStep parse st idx l) (idx + 1) ls = _
      rw [blockStep_body parse st idx l (by rw [h1]; intro h; cases h) hnc h2,
        ih { st with body_lines := st.body_lines ++ [l] } (idx + 1) j h1 h2]
      simp [List.filter_cons, hnc]

/-- Between the request line and the first blank line, non-blank lines
touch only the header mapping: the request fields, the body flag and the
collected body lines are unchanged. -/
theorem runBlock_header_section (parse : String → Except String ParsedUrl)
    (ls : List String) :
    ∀ (st : BlockState) (idx j : Nat),
      st.request_line_number = some j → st.in_body = false →
      (∀ l ∈ ls, ¬ rustTrim l = "") →
      (runBlock parse st idx ls).request_line_number = some j ∧
      (runBlock parse st idx ls).in_body = false ∧
      (runBlock parse st idx ls).body_lines = st.body_lines ∧
      (runBlock parse st idx ls).method = st.method ∧
      (runBlock parse st idx ls).url = st.url := by
  induction ls with
  | nil =>
    intro st idx j h1 h2 h3
    exact ⟨h1, h2, rfl, rfl, rfl⟩
  | cons l ls ih =>
    intro st idx j h1 h2 h3
    have hl := h3 l (List.mem_cons_self l ls)
    have hrest : ∀ x ∈ ls, ¬ rustTrim x = "" :=
      fun x hx => h3 x (List.mem_cons_of_mem l hx)
    by_cases hc : isComment (rustTrim l) = true
    · have he : runBlock parse st idx (l :: ls) = runBlock parse st (idx + 1) ls := by
        show runBlock parse (blockStep parse st idx l) (idx + 1) ls = _
        rw [blockStep_comment parse st idx l hc]
      rw [he]
      exact ih st (idx + 1) j h1 h2 hrest
    · have hnc : isComment (rustTrim l) = false := by
        rwa [Bool.not_eq_true] at hc
      have he : runBlock parse st idx (l :: ls) =
          runBlock parse
            (match header_split (rustTrim l) with
             | some (name, value) => { st with headers := insertHeader st.headers name value }
             | none => st) (idx + 1) ls := by
        show runBlock parse (blockStep parse st idx l) (idx + 1) ls = _
        rw [blockStep_header_line parse st idx l (by rw [h1]; intro h; cases h) hnc h2 hl]
      rw [he]
      cases hh : header_split (rustTrim l) with
      | some nv =>
        obtain ⟨n, v⟩ := nv
        exact ih _ (idx + 1) j h1 h2 hrest
      | none =>
        exact ih _ (idx + 1) j h1 h2 hrest

/-- From a state that has its request line and is still before the body,
a blank line followed by the body lines ends with the body flag set and
exactly the non-comment body lines appended. -/
theorem runBlock_blank_then_body (parse : String → Except String ParsedUrl)
    (bodyLines : List String) (st2 : BlockState) (k j : Nat)
    (h1 : st2.request_line_number = some j) (h2 : st2.in_body = false) :
    runBlock parse st2 k ("" :: bodyLines) =
      { st2 with in_body := true,
                 body_lines := st2.body_lines ++
                   bodyLines.filter (fun l => !(isComment (rustTrim l))) } := by
  show runBlock parse (blockStep parse st2 k "") (k + 1) bodyLines = _
  rw [blockStep_blank parse st2 k "" (by rw [h1]; intro h; cases h) h2 rfl]
  rw [runBlock_in_body parse bodyLines { st2 with in_body := true } (k + 1) j h1 rfl]

/-- A block of the shape request line, non-blank header lines, one blank
line, then body lines, parses to a descriptor anchored at the request
line whose body is the non-comment body lines joined by newlines and
trimmed — or absent when no non-comment body line exists. -/
theorem parse_block_request_blank_body (parse : String → Except String ParsedUrl)
    (reqLine : String) (hs bodyLines : List String) (m u : String)
    (rest : List String) (vurl : String)
    (hw : split_whitespace (rustTrim reqLine) = m :: u :: rest)
    (h4 : rustToUpper m ∈ valid_methods)
    (hv : validate_url parse u = Except.ok vurl)
    (hnc : isComment (rustTrim reqLine) = false)
    (hhs : ∀ l ∈ hs, ¬ rustTrim l = "") :
    ∃ req, parse_block_lines parse (reqLine :: (hs ++ "" :: bodyLines)) 0
        (reqLine :: (hs ++ "" :: bodyLines)).length = some req ∧
      req.line_number = 0 ∧ req.method = rustToUpper m ∧ req.url = vurl ∧
      req.body =
        (if bodyLines.filter (fun l => !(isComment (rustTrim l))) = [] then none
         else some (rustTrim (joinLines
           (bodyLines.filter (fun l => !(isComment (rustTrim l))))))) := by
  have hrun1 : runBlock parse {} 0 (reqLine :: (hs ++ "" :: bodyLines)) =
      runBlock parse (⟨rustToUpper m, vurl, [], [], some 0, false⟩ : BlockState) 1
        (hs ++ "" :: bodyLines) := by
    show runBlock parse (blockStep parse {} 0 reqLine) 1 (hs ++ "" :: bodyLines) = _
    rw [blockStep_request parse {} 0 reqLine m u rest vurl rfl hnc hw h4 hv]
  obtain ⟨hh1, hh2, hh3, hh4, hh5⟩ := runBlock_header_section parse hs
    (⟨rustToUpper m, vurl, [], [], some 0, false⟩ : BlockState) 1 0 rfl rfl hhs
  have happ := runBlock_append parse hs ("" :: bodyLines)
    (⟨rustToUpper m, vurl, [], [], some 0, false⟩ : BlockState) 1
  set st2 : BlockState :=
    runBlock parse (⟨rustToUpper m, vurl, [], [], some 0, false⟩ : BlockState) 1 hs
  clear_value st2
  obtain ⟨m2, u2, hd2, b2, r2, ib2⟩ := st2
  dsimp only at hh1 hh2 hh3 hh4 hh5
  subst hh1
  subst hh2
  subst hh3
  subst hh4
  have hh5s : vurl = u2 := hh5.symm
  subst hh5s
  simp only [parse_block_lines, List.take_length, List.drop_zero]
  rw [hrun1, happ, runBlock_blank_then_body parse bodyLines
    (⟨rustToUpper m, vurl, hd2, [], some 0, false⟩ : BlockState) (1 + hs.length) 0 rfl rfl]
  exact ⟨_, rfl, rfl, rfl, rfl, rfl⟩

/-- C3 as amended: for a block with a valid request line, header lines and
a blank line before the body, the descriptor's body is the NON-COMMENT
lines after the first blank line (lines whose trimmed content starts with
a hash or a double slash are skipped even inside the body), verbatim,
joined by newlines and trimmed at both ends — absent when no such line
exists. -/
theorem parse_block_body_joined (parse : String → Except String ParsedUrl)
    (reqLine : String) (hs bodyLines : List String) (m u : String)
    (rest : List String) (vurl : String)
    (hw : split_whitespace (rustTrim reqLine) = m :: u :: rest)
    (h4 : rustToUpper m ∈ valid_methods)
    (hv : validate_url parse u = Except.ok vurl)
    (hnc : isComment (rustTrim reqLine) = false)
    (hhs : ∀ l ∈ hs, ¬ rustTrim l = "") :
    ∃ req, parse_block_lines parse (reqLine :: (hs ++ "" :: bodyLines)) 0
        (reqLine :: (hs ++ "" :: bodyLines)).length = some req ∧
      req.line_number = 0 ∧ req.method = rustToUpper m ∧ req.url = vurl ∧
      req.body =
        (if bodyLines.filter (fun l => !(isComment (rustTrim l))) = [] then none
         else some (rustTrim (joinLines
           (bodyLines.filter (fun l => !(isComment (rustTrim l))))))) :=
  parse_block_request_blank_body parse reqLine hs bodyLines m u rest vurl hw h4 hv hnc hhs

/-- C3 counterexample: in a body containing the comment-like line "# c",
the parser records the body "body", not the verbatim join of all lines
after the blank line, which would be two lines. -/
theorem parse_block_body_comment_counterexample :
    (parse_http_file demoParse "GET http://example.com/\n\n# c\nbody").map
      (fun r => r.body) = [some "body"] ∧
    ¬ (parse_http_file demoParse "GET http://example.com/\n\n# c\nbody").map
      (fun r => r.body) = [some (rustTrim (joinLines ["# c", "body"]))] := by
  constructor
  · decide
  · decide

/-- Witness for C3 on a concrete block with one header line, one comment
line in the body and one plain body line. -/
theorem parse_block_body_joined_witness :
    ∃ req, parse_block_lines demoParse
        ("GET http://example.com/" :: (["Accept: x"] ++ "" :: ["# c", "body"])) 0
        ("GET http://example.com/" :: (["Accept: x"] ++ "" :: ["# c", "body"])).length =
        some req ∧
      req.line_number = 0 ∧ req.method = rustToUpper "GET" ∧
      req.url = "http://example.com/" ∧
      req.body =
        (if (["# c", "body"].filter (fun l => !(isComment (rustTrim l)))) = [] then none
         else some (rustTrim (joinLines
           (["# c", "body"].filter (fun l => !(isComment (rustTrim l))))))) :=
  parse_block_body_joined demoParse "GET http://example.com/" ["Accept: x"] ["# c", "body"]
    "GET" "http://example.com/" [] "http://example.com/"
    (by decide) (by decide) (by decide) (by decide)
    (by decide)

/-- C2 as amended: a body section that exists (a blank line follows the
request line) and consists of at least one line, all whitespace, yields a
body that is PRESENT and equal to the empty string — `some ""`, not
`none`: the parser only records an absent body when no body line was
collected at all. -/
theorem parse_block_whitespace_body_some_empty (parse : String → Except String ParsedUrl)
    (reqLine : String) (ws : List String) (m u : String)
    (rest : List String) (vurl : String)
    (hw : split_whitespace (rustTrim reqLine) = m :: u :: rest)
    (h4 : rustToUpper m ∈ valid_methods)
    (hv : validate_url parse u = Except.ok vurl)
    (hnc : isComment (rustTrim reqLine) = false)
    (hne : ws ≠ [])
    (hws : ∀ w ∈ ws, rustTrim w = "")
    (hjoin : rustTrim (joinLines ws) = "") :
    ∃ req, parse_block_lines parse (reqLine :: "" :: ws) 0
        (reqLine :: "" :: ws).length = some req ∧
      req.body = some "" := by
  have hfilter : ws.filter (fun l => !(isComment (rustTrim l))) = ws := by
    rw [List.filter_eq_self]
    intro w hwmem
    have hwt := hws w hwmem
    simp only [hwt]
    decide
  obtain ⟨req, hpb, hln, hm, hu, hbody⟩ :=
    parse_block_request_blank_body parse reqLine [] ws m u rest vurl hw h4 hv hnc
      (by intro l hl; cases hl)
  refine ⟨req, hpb, ?_⟩
  rw [hbody, hfilter, if_neg hne, hjoin]

/-- C2 counterexample: a body section consisting of the single whitespace
line "   " yields `body = some ""`, not `none` as the claim states. -/
theorem parse_whitespace_body_counterexample :
    (parse_http_file demoParse "GET http://example.com/\n\n   ").map
      (fun r => r.body) = [some ""] ∧
    ¬ (parse_http_file demoParse "GET http://example.com/\n\n   ").map
      (fun r => r.body) = [none] := by
  constructor
  · decide
  · decide

/-- Witness for C2 on the concrete whitespace-only body block. -/
theorem parse_block_whitespace_body_some_empty_witness :
    ∃ req, parse_block_lines demoParse ("GET http://example.com/" :: "" :: ["   "]) 0
        ("GET http://example.com/" :: "" :: ["   "]).length = some req ∧
      req.body = some "" :=
  parse_block_whitespace_body_some_empty demoParse "GET http://example.com/" ["   "]
    "GET" "http://example.com/" [] "http://example.com/"
    (by decide) (by decide) (by decide) (by decide) (by decide) (by decide) (by decide)
